import Mathlib

/-!
Verification of the bump-style arena allocator (`CustomAllocator`) and the
owning container (`CustomContainer`) of `src/main.cpp`, via a shallow
embedding.  Machine addresses are modelled as byte offsets into the
allocator's logical buffer (the pointer `buffer.data() + allocated` becomes
the offset `allocated`); `sizeof(T)` is a parameter `sizeofT` fixed at
construction.  Only the buffer's length is observable in the embedding, so
the byte vector is represented by its size.
-/

namespace Lab4

/-- State of `CustomAllocator<T>` (src/main.cpp lines 8-76):
`block_size` and `allocated` are the fields of the same names, `bufferSize`
is `buffer.size()`, `allocated_objects` is the live set of tracked
addresses (as byte offsets), and `sizeofT` models `sizeof(T)`. -/
structure CustomAllocator where
  block_size : Nat
  sizeofT : Nat
  allocated : Nat
  bufferSize : Nat
  allocated_objects : Finset Nat
  deriving DecidableEq

/-- `expand` (line 69-71): `buffer.resize(buffer.size() + block_size * sizeof(T))`. -/
def expand (a : CustomAllocator) : CustomAllocator :=
  { a with bufferSize := a.bufferSize + a.block_size * a.sizeofT }

/-- The explicit constructor `CustomAllocator(size_t block_size)`
(lines 16-18): sets `allocated = 0`, empty buffer and live set, then calls
`expand()` once. -/
def ofBlockSize (block_size sizeofT : Nat) : CustomAllocator :=
  expand { block_size := block_size, sizeofT := sizeofT, allocated := 0,
           bufferSize := 0, allocated_objects := ∅ }

/-- The default constructor `CustomAllocator()` (line 21) delegates to the
explicit constructor with `block_size = 10`. -/
def defaultAllocator (sizeofT : Nat) : CustomAllocator :=
  ofBlockSize 10 sizeofT

/-- The successful tail of `allocate` (lines 36-42): take the current cursor
as the result, advance the cursor by `n * sizeof(T)` bytes, and insert the
result into `allocated_objects`. -/
def bump (a : CustomAllocator) (n : Nat) : Option Nat × CustomAllocator :=
  (some a.allocated,
    { a with allocated := a.allocated + n * a.sizeofT,
             allocated_objects := insert a.allocated a.allocated_objects })

/-- `allocate` (lines 31-43): `n == 0` returns `nullptr` without touching the
state; otherwise if `allocated + n * sizeof(T) > buffer.size()` the buffer is
expanded once (the check is not redone), then the bump is performed. -/
def allocate (a : CustomAllocator) (n : Nat) : Option Nat × CustomAllocator :=
  if n = 0 then (none, a)
  else if a.bufferSize < a.allocated + n * a.sizeofT then bump (expand a) n
  else bump a n

/-- `deallocate` (lines 46-53): if `p` is tracked, erase it from
`allocated_objects` and run the destructor (`p->~T()`, recorded by the
returned `Bool`); otherwise do nothing.  The count argument `n` is ignored,
as in the source. -/
def deallocate (a : CustomAllocator) (p : Nat) (n : Nat) :
    CustomAllocator × Bool :=
  if p ∈ a.allocated_objects then
    ({ a with allocated_objects := a.allocated_objects.erase p }, true)
  else (a, false)

/-- Run a sequence of `allocate` calls, discarding the returned pointers. -/
def runAllocs (a : CustomAllocator) (ns : List Nat) : CustomAllocator :=
  ns.foldl (fun s k => (allocate s k).2) a

/-- An interleaved allocator operation: an `allocate(n)` call or a
`deallocate(p, n)` call. -/
inductive AllocOp where
  | alloc : Nat → AllocOp
  | dealloc : Nat → Nat → AllocOp
  deriving DecidableEq

/-- Execute one operation on the allocator state. -/
def stepOp (a : CustomAllocator) : AllocOp → CustomAllocator
  | AllocOp.alloc n => (allocate a n).2
  | AllocOp.dealloc p n => (deallocate a p n).1

/-- The byte spans `[addr, addr + n * sizeof(T))` returned by the successful
`allocate` calls of a run, each recorded as (start, length). -/
def spansOf (a : CustomAllocator) : List AllocOp → List (Nat × Nat)
  | [] => []
  | AllocOp.alloc n :: ops =>
      match allocate a n with
      | (none, a') => spansOf a' ops
      | (some r, a') => (r, n * a.sizeofT) :: spansOf a' ops
  | AllocOp.dealloc p n :: ops => spansOf (deallocate a p n).1 ops

/-! ### Basic lemmas about `allocate` -/

theorem expand_allocated (a : CustomAllocator) :
    (expand a).allocated = a.allocated := rfl

theorem allocate_zero (a : CustomAllocator) : allocate a 0 = (none, a) := rfl

theorem allocate_fst (a : CustomAllocator) (n : Nat) (h : n ≠ 0) :
    (allocate a n).1 = some a.allocated := by
  unfold allocate bump
  split
  · exact absurd ‹n = 0› h
  · split <;> rfl

theorem allocate_allocated (a : CustomAllocator) (n : Nat) :
    (allocate a n).2.allocated = a.allocated + n * a.sizeofT := by
  unfold allocate bump
  split
  · simp [‹n = 0›]
  · split <;> rfl

theorem allocate_block_size (a : CustomAllocator) (n : Nat) :
    (allocate a n).2.block_size = a.block_size := by
  unfold allocate bump
  split
  · rfl
  · split <;> rfl

theorem allocate_sizeofT (a : CustomAllocator) (n : Nat) :
    (allocate a n).2.sizeofT = a.sizeofT := by
  unfold allocate bump
  split
  · rfl
  · split <;> rfl

theorem allocate_objects (a : CustomAllocator) (n : Nat) (h : n ≠ 0) :
    (allocate a n).2.allocated_objects =
      insert a.allocated a.allocated_objects := by
  unfold allocate bump
  split
  · exact absurd ‹n = 0› h
  · split <;> rfl

theorem allocate_eq_pos (a : CustomAllocator) (n : Nat) (h : n ≠ 0) :
    allocate a n = (some a.allocated, (allocate a n).2) := by
  conv_lhs => rw [show allocate a n = ((allocate a n).1, (allocate a n).2) from rfl]
  rw [allocate_fst a n h]

theorem allocate_bufferSize_ge (a : CustomAllocator) (n : Nat) :
    a.bufferSize ≤ (allocate a n).2.bufferSize := by
  unfold allocate bump expand
  split
  · exact le_refl _
  · split
    · exact Nat.le_add_right _ _
    · exact le_refl _

/-! ### Claim C5: allocate(0) is a no-op returning null -/

/-- Claim C5: for every allocator state, `allocate(0)` returns null and
leaves the whole state (cursor, buffer, live set) unchanged. -/
theorem allocate_zero_noop (a : CustomAllocator) : allocate a 0 = (none, a) :=
  rfl

/-! ### Claim C2: concrete growth boundary scenario -/

/-- Claim C2: with `block_size = 10` and a 4-byte element, capacity is 40
after construction; after 10 `allocate(1)` calls the cursor is 40 and the
capacity still 40 (the strict `>` comparison does not fire at the boundary);
the 11th `allocate(1)` grows the capacity to 80. -/
theorem scenario_block10 :
    (ofBlockSize 10 4).bufferSize = 40
    ∧ (runAllocs (ofBlockSize 10 4) (List.replicate 10 1)).allocated = 40
    ∧ (runAllocs (ofBlockSize 10 4) (List.replicate 10 1)).bufferSize = 40
    ∧ (runAllocs (ofBlockSize 10 4) (List.replicate 11 1)).bufferSize = 80 := by
  refine ⟨rfl, ?_, ?_, ?_⟩ <;> decide

/-! ### Claim C1: the cursor-within-buffer invariant -/

/-- Claim C1 fails as stated: with `block_size = 10` and 4-byte elements, a
single `allocate(21)` needs 84 bytes but growth runs once, leaving capacity
80, so `allocated_offset <= buffer.length` is violated. -/
theorem cursor_invariant_counterexample :
    ¬ ((allocate (ofBlockSize 10 4) 21).2.allocated ≤
        (allocate (ofBlockSize 10 4) 21).2.bufferSize) := by
  decide

/-- One `allocate` call preserves `allocated ≤ bufferSize` provided the
request does not exceed one growth increment (`n ≤ block_size`). -/
theorem allocate_preserves_cursor_le (a : CustomAllocator) (n : Nat)
    (hinv : a.allocated ≤ a.bufferSize) (hn : n ≤ a.block_size) :
    (allocate a n).2.allocated ≤ (allocate a n).2.bufferSize := by
  unfold allocate bump expand
  split
  · exact hinv
  · split
    · exact Nat.add_le_add hinv (Nat.mul_le_mul_right _ hn)
    · exact Nat.le_of_not_lt ‹¬ _›

theorem runAllocs_preserves_cursor_le (ns : List Nat) (a : CustomAllocator)
    (hinv : a.allocated ≤ a.bufferSize) (h : ∀ n ∈ ns, n ≤ a.block_size) :
    (runAllocs a ns).allocated ≤ (runAllocs a ns).bufferSize := by
  induction ns generalizing a with
  | nil => exact hinv
  | cons n ns ih =>
      refine ih (allocate a n).2
        (allocate_preserves_cursor_le a n hinv (h n (List.mem_cons_self n ns)))
        ?_
      intro m hm
      rw [allocate_block_size]
      exact h m (List.mem_cons_of_mem n hm)

/-- Claim C1 amended: after any sequence of `allocate` calls in which every
request is at most `block_size` elements, the byte cursor never exceeds the
buffer's length.  (The unrestricted claim is refuted by
`cursor_invariant_counterexample`: a request larger than one growth
increment grows the buffer only once, which can leave
`allocated > bufferSize`.) -/
theorem cursor_le_buffer_of_bounded (bs s : Nat) (ns : List Nat)
    (h : ∀ n ∈ ns, n ≤ bs) :
    (runAllocs (ofBlockSize bs s) ns).allocated ≤
      (runAllocs (ofBlockSize bs s) ns).bufferSize :=
  runAllocs_preserves_cursor_le ns (ofBlockSize bs s)
    (Nat.zero_le _) h

theorem cursor_le_buffer_of_bounded_witness :
    (∀ n ∈ [3, 10, 1], n ≤ 10) ∧
    (runAllocs (ofBlockSize 10 4) [3, 10, 1]).allocated ≤
      (runAllocs (ofBlockSize 10 4) [3, 10, 1]).bufferSize :=
  ⟨by decide, cursor_le_buffer_of_bounded 10 4 [3, 10, 1] (by decide)⟩

/-! ### Claim C9: block_size == 0 at construction -/

/-- Claim C9 fails: the explicit constructor accepts `block_size == 0` as-is
(no rejection, no defaulting), and the resulting allocator operates with
`block_size == 0`: `allocate(1)` still hands out an address while the growth
increment is zero bytes. -/
theorem zero_block_size_counterexample :
    (ofBlockSize 0 4).block_size = 0
    ∧ (allocate (ofBlockSize 0 4) 1).1 = some 0
    ∧ (allocate (ofBlockSize 0 4) 1).2.block_size = 0
    ∧ (allocate (ofBlockSize 0 4) 1).2.bufferSize = 0 := by
  decide

/-- Claim C9 amended: the explicit constructor stores whatever `block_size`
it is given, including 0 (the allocator then operates with a zero-byte
growth increment); only the default constructor substitutes the default
block size 10. -/
theorem zero_block_size_accepted :
    (∀ bs s, (ofBlockSize bs s).block_size = bs)
    ∧ (ofBlockSize 0 4).block_size = 0
    ∧ (allocate (ofBlockSize 0 4) 1).1 = some 0
    ∧ (∀ s, (defaultAllocator s).block_size = 10) :=
  ⟨fun _ _ => rfl, rfl, rfl, fun _ => rfl⟩

/-! ### Claim C6: deallocate of a tracked pointer -/

/-- Claim C6: for a pointer `p` in the live set, `deallocate(p, n)` removes
`p` from the live set and runs the destructor exactly once (the `Bool` in
the result records a destructor invocation); a second `deallocate(p, n')`
on the same pointer leaves the state unchanged and does not run the
destructor again. -/
theorem deallocate_tracked (a : CustomAllocator) (p n m : Nat)
    (h : p ∈ a.allocated_objects) :
    (deallocate a p n).2 = true
    ∧ p ∉ (deallocate a p n).1.allocated_objects
    ∧ deallocate (deallocate a p n).1 p m = ((deallocate a p n).1, false) := by
  unfold deallocate
  rw [if_pos h]
  refine ⟨rfl, Finset.not_mem_erase p _, ?_⟩
  rw [if_neg (Finset.not_mem_erase p _)]

theorem deallocate_tracked_witness :
    (0 ∈ (allocate (ofBlockSize 10 4) 1).2.allocated_objects) ∧
    ((deallocate (allocate (ofBlockSize 10 4) 1).2 0 1).2 = true
    ∧ 0 ∉ (deallocate (allocate (ofBlockSize 10 4) 1).2 0 1).1.allocated_objects
    ∧ deallocate (deallocate (allocate (ofBlockSize 10 4) 1).2 0 1).1 0 1 =
        ((deallocate (allocate (ofBlockSize 10 4) 1).2 0 1).1, false)) :=
  ⟨by decide, deallocate_tracked (allocate (ofBlockSize 10 4) 1).2 0 1 1 (by decide)⟩

/-! ### Claim C7: deallocate of an untracked pointer -/

theorem deallocate_not_mem (a : CustomAllocator) (p n : Nat)
    (h : p ∉ a.allocated_objects) :
    deallocate a p n = (a, false) := by
  unfold deallocate
  rw [if_neg h]

/-- Claim C7: for a pointer `p` not in the live set, `deallocate(p, n)`
leaves the entire allocator state unchanged and reports no destructor run
(it does not fail). -/
theorem deallocate_untracked (a : CustomAllocator) (p n : Nat)
    (h : p ∉ a.allocated_objects) :
    deallocate a p n = (a, false) :=
  deallocate_not_mem a p n h

theorem deallocate_untracked_witness :
    (5 ∉ (ofBlockSize 10 4).allocated_objects) ∧
    deallocate (ofBlockSize 10 4) 5 1 = (ofBlockSize 10 4, false) :=
  ⟨by decide, deallocate_untracked (ofBlockSize 10 4) 5 1 (by decide)⟩

/-! ### Claim C3: capacity after a run of allocations -/

theorem allocate_bufferSize (a : CustomAllocator) (n : Nat) :
    (allocate a n).2.bufferSize =
      if n ≠ 0 ∧ a.bufferSize < a.allocated + n * a.sizeofT
      then a.bufferSize + a.block_size * a.sizeofT else a.bufferSize := by
  unfold allocate bump expand
  by_cases h0 : n = 0
  · simp [h0]
  · rw [if_neg h0]
    by_cases hlt : a.bufferSize < a.allocated + n * a.sizeofT
    · rw [if_pos hlt, if_pos ⟨h0, hlt⟩]
    · rw [if_neg hlt, if_neg (by tauto)]

/-- Capacity invariant maintained by `allocate` for in-bound requests: the
cursor fits, the capacity is a multiple of the growth increment, at least
one increment, and within one increment above the cursor (strictly so once
anything has been allocated). -/
def GoodCap (a : CustomAllocator) : Prop :=
  a.allocated ≤ a.bufferSize
  ∧ (a.block_size * a.sizeofT) ∣ a.bufferSize
  ∧ a.block_size * a.sizeofT ≤ a.bufferSize
  ∧ a.bufferSize ≤ a.allocated + a.block_size * a.sizeofT
  ∧ (0 < a.allocated → a.bufferSize < a.allocated + a.block_size * a.sizeofT)

theorem goodCap_ofBlockSize (bs s : Nat) : GoodCap (ofBlockSize bs s) := by
  unfold GoodCap ofBlockSize expand
  refine ⟨Nat.zero_le _, ?_, ?_, ?_, ?_⟩ <;> simp

theorem allocate_preserves_goodCap (a : CustomAllocator) (n : Nat)
    (hs : 1 ≤ a.sizeofT) (hn : n ≤ a.block_size) (hg : GoodCap a) :
    GoodCap (allocate a n).2 := by
  obtain ⟨h1, h2, h3, h4, h5⟩ := hg
  by_cases h0 : n = 0
  · subst h0
    exact ⟨h1, h2, h3, h4, h5⟩
  · have hmul : n * a.sizeofT ≤ a.block_size * a.sizeofT :=
      Nat.mul_le_mul_right _ hn
    have hpos : 0 < n * a.sizeofT :=
      Nat.mul_pos (Nat.pos_of_ne_zero h0) hs
    unfold GoodCap
    rw [allocate_allocated, allocate_bufferSize, allocate_block_size,
      allocate_sizeofT]
    by_cases hlt : a.bufferSize < a.allocated + n * a.sizeofT
    · rw [if_pos ⟨h0, hlt⟩]
      exact ⟨by omega, Nat.dvd_add h2 dvd_rfl, by omega, by omega,
        fun _ => by omega⟩
    · rw [if_neg (by tauto)]
      exact ⟨by omega, h2, h3, by omega, fun _ => by omega⟩

theorem runAllocs_cons (a : CustomAllocator) (n : Nat) (ns : List Nat) :
    runAllocs a (n :: ns) = runAllocs (allocate a n).2 ns := rfl

theorem runAllocs_block_size (ns : List Nat) (a : CustomAllocator) :
    (runAllocs a ns).block_size = a.block_size := by
  induction ns generalizing a with
  | nil => rfl
  | cons n ns ih => rw [runAllocs_cons, ih, allocate_block_size]

theorem runAllocs_sizeofT (ns : List Nat) (a : CustomAllocator) :
    (runAllocs a ns).sizeofT = a.sizeofT := by
  induction ns generalizing a with
  | nil => rfl
  | cons n ns ih => rw [runAllocs_cons, ih, allocate_sizeofT]

theorem runAllocs_allocated (ns : List Nat) (a : CustomAllocator) :
    (runAllocs a ns).allocated = a.allocated + ns.sum * a.sizeofT := by
  induction ns generalizing a with
  | nil => simp [runAllocs]
  | cons n ns ih =>
      rw [runAllocs_cons, ih, allocate_allocated, allocate_sizeofT,
        List.sum_cons]
      ring

theorem runAllocs_goodCap (ns : List Nat) (a : CustomAllocator)
    (hs : 1 ≤ a.sizeofT) (hn : ∀ n ∈ ns, n ≤ a.block_size)
    (hg : GoodCap a) : GoodCap (runAllocs a ns) := by
  induction ns generalizing a with
  | nil => exact hg
  | cons n ns ih =>
      rw [runAllocs_cons]
      refine ih (allocate a n).2 ?_ ?_ ?_
      · rw [allocate_sizeofT]; exact hs
      · intro m hm
        rw [allocate_block_size]
        exact hn m (List.mem_cons_of_mem n hm)
      · exact allocate_preserves_goodCap a n hs (hn n (List.mem_cons_self n ns)) hg

/-- Claim C3 fails as stated: with `block_size = 10` and 4-byte elements the
single call `allocate(21)` requests 84 bytes in total, yet the capacity
after the run is only 80 bytes, so capacity `>= B` does not hold. -/
theorem capacity_counterexample :
    ¬ (List.sum [21] * 4 ≤ (runAllocs (ofBlockSize 10 4) [21]).bufferSize) := by
  decide

/-- Claim C3 amended: for a run of `allocate` calls in which each request is
at most `block_size` elements, the final capacity is at least the total of
requested bytes `B = ns.sum * sizeofT`, is a multiple of the growth
increment `block_size * sizeofT`, equals one increment when `B = 0` (the
initial growth performed at construction), and when `B > 0` is the smallest
multiple of the increment that is `>= B`.  (The unrestricted claim is
refuted by `capacity_counterexample`.) -/
theorem capacity_least_multiple (bs s : Nat) (ns : List Nat)
    (hs : 1 ≤ s) (hn : ∀ n ∈ ns, n ≤ bs) :
    ns.sum * s ≤ (runAllocs (ofBlockSize bs s) ns).bufferSize
    ∧ (bs * s) ∣ (runAllocs (ofBlockSize bs s) ns).bufferSize
    ∧ (ns.sum * s = 0 → (runAllocs (ofBlockSize bs s) ns).bufferSize = bs * s)
    ∧ (0 < ns.sum * s → ∀ c, (bs * s) ∣ c → ns.sum * s ≤ c →
        (runAllocs (ofBlockSize bs s) ns).bufferSize ≤ c) := by
  have hg := runAllocs_goodCap ns (ofBlockSize bs s) hs hn
    (goodCap_ofBlockSize bs s)
  obtain ⟨h1, h2, h3, h4, h5⟩ := hg
  rw [runAllocs_block_size, runAllocs_sizeofT,
    show (ofBlockSize bs s).block_size = bs from rfl,
    show (ofBlockSize bs s).sizeofT = s from rfl] at h2 h3 h4 h5
  have hB : (runAllocs (ofBlockSize bs s) ns).allocated = ns.sum * s := by
    rw [runAllocs_allocated]
    show 0 + ns.sum * s = ns.sum * s
    omega
  rw [hB] at h1 h4 h5
  refine ⟨h1, h2, fun hz => by omega, ?_⟩
  intro hBpos c hc hBc
  by_cases hcap : (runAllocs (ofBlockSize bs s) ns).bufferSize ≤ c
  · exact hcap
  · have hlt : c < (runAllocs (ofBlockSize bs s) ns).bufferSize :=
      Nat.lt_of_not_le hcap
    have hd : (bs * s) ∣ ((runAllocs (ofBlockSize bs s) ns).bufferSize - c) :=
      Nat.dvd_sub' h2 hc
    have hle := Nat.le_of_dvd (Nat.sub_pos_of_lt hlt) hd
    have h5' := h5 hBpos
    omega

theorem capacity_least_multiple_witness :
    ((1 : Nat) ≤ 4 ∧ ∀ n ∈ [3, 5], n ≤ 10) ∧
    (List.sum [3, 5] * 4 ≤ (runAllocs (ofBlockSize 10 4) [3, 5]).bufferSize
    ∧ (10 * 4) ∣ (runAllocs (ofBlockSize 10 4) [3, 5]).bufferSize
    ∧ (List.sum [3, 5] * 4 = 0 →
        (runAllocs (ofBlockSize 10 4) [3, 5]).bufferSize = 10 * 4)
    ∧ (0 < List.sum [3, 5] * 4 → ∀ c, (10 * 4) ∣ c → List.sum [3, 5] * 4 ≤ c →
        (runAllocs (ofBlockSize 10 4) [3, 5]).bufferSize ≤ c)) :=
  ⟨⟨by decide, by decide⟩,
    capacity_least_multiple 10 4 [3, 5] (by decide) (by decide)⟩

/-! ### Claim C4: returned spans never overlap -/

theorem deallocate_state_allocated (a : CustomAllocator) (p n : Nat) :
    (deallocate a p n).1.allocated = a.allocated := by
  unfold deallocate
  split <;> rfl

theorem spansOf_alloc_zero (a : CustomAllocator) (ops : List AllocOp) :
    spansOf a (AllocOp.alloc 0 :: ops) = spansOf a ops := rfl

theorem spansOf_alloc_pos (a : CustomAllocator) (n : Nat) (ops : List AllocOp)
    (h : n ≠ 0) :
    spansOf a (AllocOp.alloc n :: ops) =
      (a.allocated, n * a.sizeofT) :: spansOf (allocate a n).2 ops := by
  conv_lhs => rw [spansOf, allocate_eq_pos a n h]

theorem spansOf_dealloc (a : CustomAllocator) (p n : Nat) (ops : List AllocOp) :
    spansOf a (AllocOp.dealloc p n :: ops) =
      spansOf (deallocate a p n).1 ops := rfl

theorem spansOf_start_ge (ops : List AllocOp) (a : CustomAllocator) :
    ∀ sp ∈ spansOf a ops, a.allocated ≤ sp.1 := by
  induction ops generalizing a with
  | nil => intro sp h; simp [spansOf] at h
  | cons op ops ih =>
      cases op with
      | alloc n =>
          by_cases h0 : n = 0
          · subst h0
            rw [spansOf_alloc_zero]
            exact ih a
          · rw [spansOf_alloc_pos a n ops h0]
            intro sp hsp
            rcases List.mem_cons.mp hsp with h | h
            · rw [h]
            · have hge := ih (allocate a n).2 sp h
              rw [allocate_allocated] at hge
              omega
      | dealloc p n =>
          rw [spansOf_dealloc]
          intro sp hsp
          have hge := ih (deallocate a p n).1 sp hsp
          rwa [deallocate_state_allocated] at hge

theorem spansOf_chain (ops : List AllocOp) (a : CustomAllocator) :
    List.Pairwise (fun x y => x.1 + x.2 ≤ y.1) (spansOf a ops) := by
  induction ops generalizing a with
  | nil => exact List.Pairwise.nil
  | cons op ops ih =>
      cases op with
      | alloc n =>
          by_cases h0 : n = 0
          · subst h0
            rw [spansOf_alloc_zero]
            exact ih a
          · rw [spansOf_alloc_pos a n ops h0]
            refine List.Pairwise.cons ?_ (ih _)
            intro sp hsp
            have hge := spansOf_start_ge ops (allocate a n).2 sp hsp
            rw [allocate_allocated] at hge
            exact hge
      | dealloc p n =>
          rw [spansOf_dealloc]
          exact ih _

/-- Claim C4: over any interleaved run of `allocate`/`deallocate`
operations from any starting state, the byte spans
`[addr, addr + n * sizeof(T))` handed out by the successful `allocate`
calls are pairwise disjoint (deallocation never reuses a range, so no
intervening `deallocate` can make two spans overlap). -/
theorem spans_disjoint (a : CustomAllocator) (ops : List AllocOp) :
    List.Pairwise (fun x y => x.1 + x.2 ≤ y.1 ∨ y.1 + y.2 ≤ x.1)
      (spansOf a ops) :=
  (spansOf_chain ops a).imp fun h => Or.inl h

/-! ### Claim C10: only the span start is tracked; count is ignored -/

/-- Claim C10: `deallocate(p, n)` behaves identically for every count `n`
(at most the one destructor for `p` runs); a successful `allocate(n)`
records only the span's start address in the live set; and for `n > 1`
every interior slot address of the span is untracked, so `deallocate` on it
is a no-op that runs no destructor. -/
theorem interior_addresses_untracked (a : CustomAllocator) (n k m : Nat)
    (hs : 1 ≤ a.sizeofT)
    (hlive : ∀ q ∈ a.allocated_objects, q < a.allocated)
    (hn : n ≠ 0) (hk1 : 1 ≤ k) (hkn : k < n) :
    (∀ p m1 m2, deallocate a p m1 = deallocate a p m2)
    ∧ (allocate a n).2.allocated_objects =
        insert a.allocated a.allocated_objects
    ∧ deallocate (allocate a n).2 (a.allocated + k * a.sizeofT) m =
        ((allocate a n).2, false) := by
  refine ⟨fun p m1 m2 => rfl, allocate_objects a n hn, ?_⟩
  have hq : a.allocated < a.allocated + k * a.sizeofT := by
    have := Nat.mul_pos hk1 hs
    omega
  refine deallocate_not_mem _ _ _ ?_
  rw [allocate_objects a n hn]
  intro hmem
  rcases Finset.mem_insert.mp hmem with h | h
  · omega
  · have := hlive _ h
    omega

theorem interior_addresses_untracked_witness :
    ((1 : Nat) ≤ (ofBlockSize 10 4).sizeofT
      ∧ (∀ q ∈ (ofBlockSize 10 4).allocated_objects,
          q < (ofBlockSize 10 4).allocated)
      ∧ (3 : Nat) ≠ 0 ∧ (1 : Nat) ≤ 1 ∧ (1 : Nat) < 3) ∧
    ((∀ p m1 m2, deallocate (ofBlockSize 10 4) p m1 =
        deallocate (ofBlockSize 10 4) p m2)
    ∧ (allocate (ofBlockSize 10 4) 3).2.allocated_objects =
        insert (ofBlockSize 10 4).allocated
          (ofBlockSize 10 4).allocated_objects
    ∧ deallocate (allocate (ofBlockSize 10 4) 3).2
        ((ofBlockSize 10 4).allocated + 1 * (ofBlockSize 10 4).sizeofT) 1 =
        ((allocate (ofBlockSize 10 4) 3).2, false)) :=
  ⟨⟨by decide, by decide, by decide, by decide, by decide⟩,
    interior_addresses_untracked (ofBlockSize 10 4) 3 1 1 (by decide)
      (by decide) (by decide) (by decide) (by decide)⟩

/-! ### The owning container (`CustomContainer`, src/main.cpp lines 79-123)

`data` is the vector of owned element addresses (byte offsets) in insertion
order; `store` is the write log of the construction `new(p) T(value)` of
each element (latest write first), so `readStore` is memory lookup. -/

structure CustomContainer where
  alloc : CustomAllocator
  data : List Nat
  store : List (Nat × Int)

/-- Read the value constructed at offset `q`, if any (most recent write wins). -/
def readStore : List (Nat × Int) → Nat → Option Int
  | [], _ => none
  | e :: es, q => if e.1 = q then some e.2 else readStore es q

/-- The constructor `CustomContainer(Alloc alloc = Alloc())` (line 87):
stores the allocator, with no elements. -/
def mkContainer (a : CustomAllocator) : CustomContainer :=
  { alloc := a, data := [], store := [] }

/-- `add` (lines 89-93): `p = alloc.allocate(1)`, then `new(p) T(value)`,
then `data.push_back(p)`. -/
def CustomContainer.add (c : CustomContainer) (v : Int) : CustomContainer :=
  match allocate c.alloc 1 with
  | (some p, a) =>
      { alloc := a, data := c.data ++ [p], store := (p, v) :: c.store }
  | (none, a) => { alloc := a, data := c.data, store := c.store }

/-- `size` (line 110): `data.size()`. -/
def CustomContainer.size (c : CustomContainer) : Nat := c.data.length

/-- `empty` (line 112): `data.empty()`. -/
def CustomContainer.empty (c : CustomContainer) : Bool := c.data.isEmpty

/-- The sequence of element values reached by iterating `data` in order and
dereferencing each owned address. -/
def CustomContainer.displayVals (c : CustomContainer) : List (Option Int) :=
  c.data.map (readStore c.store)

/-- `display` (lines 95-100): for each `p` in `data` print `*p` followed by
a space, then a newline.  The dereference `*p` is total in the source; the
`getD 0` default is unreachable for container-built states. -/
def CustomContainer.display (c : CustomContainer) : String :=
  String.join (c.data.map
    (fun p => toString ((readStore c.store p).getD 0) ++ " ")) ++ "\n"

/-- Add a whole list of values in order. -/
def addList (c : CustomContainer) (vs : List Int) : CustomContainer :=
  vs.foldl CustomContainer.add c

theorem add_eq (c : CustomContainer) (v : Int) :
    c.add v = { alloc := (allocate c.alloc 1).2,
                data := c.data ++ [c.alloc.allocated],
                store := (c.alloc.allocated, v) :: c.store } := by
  conv_lhs => rw [CustomContainer.add, allocate_eq_pos c.alloc 1 (by decide)]

theorem addList_cons (c : CustomContainer) (v : Int) (vs : List Int) :
    addList c (v :: vs) = addList (c.add v) vs := rfl

/-- Invariant tying a container state to the values inserted so far:
dereferencing the owned addresses in order yields exactly those values, and
every owned address lies strictly below the allocator's cursor. -/
def ContInv (c : CustomContainer) (vs : List Int) : Prop :=
  c.data.map (readStore c.store) = vs.map some
  ∧ ∀ p ∈ c.data, p < c.alloc.allocated

theorem readStore_shadow (st : List (Nat × Int)) (p₀ : Nat) (v : Int)
    (l : List Nat) (h : ∀ p ∈ l, p ≠ p₀) :
    l.map (readStore ((p₀, v) :: st)) = l.map (readStore st) := by
  induction l with
  | nil => rfl
  | cons q l ih =>
      have hq : q ≠ p₀ := h q (List.mem_cons_self q l)
      have hrest := ih fun p hp => h p (List.mem_cons_of_mem q hp)
      simp only [List.map_cons, hrest]
      congr 1
      show (if p₀ = q then some v else readStore st q) = readStore st q
      rw [if_neg fun hh => hq hh.symm]

theorem add_contInv (c : CustomContainer) (v : Int) (vs : List Int)
    (hs : 1 ≤ c.alloc.sizeofT) (h : ContInv c vs) :
    ContInv (c.add v) (vs ++ [v]) := by
  obtain ⟨hmap, hbound⟩ := h
  rw [add_eq]
  constructor
  · show (c.data ++ [c.alloc.allocated]).map
        (readStore ((c.alloc.allocated, v) :: c.store)) = (vs ++ [v]).map some
    rw [List.map_append, List.map_append,
      readStore_shadow c.store c.alloc.allocated v c.data
        (fun p hp => Nat.ne_of_lt (hbound p hp)),
      hmap]
    congr 1
    show [if c.alloc.allocated = c.alloc.allocated then some v
          else readStore c.store c.alloc.allocated] = [some v]
    rw [if_pos rfl]
  · show ∀ p ∈ c.data ++ [c.alloc.allocated],
        p < (allocate c.alloc 1).2.allocated
    intro p hp
    rw [allocate_allocated]
    rcases List.mem_append.mp hp with hmem | hmem
    · have := hbound p hmem
      omega
    · have := List.mem_singleton.mp hmem
      omega

theorem add_alloc (c : CustomContainer) (v : Int) :
    (c.add v).alloc = (allocate c.alloc 1).2 := by
  rw [add_eq]

theorem addList_contInv (vs : List Int) (c : CustomContainer)
    (acc : List Int) (hs : 1 ≤ c.alloc.sizeofT) (h : ContInv c acc) :
    ContInv (addList c vs) (acc ++ vs) := by
  induction vs generalizing c acc with
  | nil =>
      rw [List.append_nil]
      exact h
  | cons v vs ih =>
      rw [addList_cons]
      have hs1 : 1 ≤ (c.add v).alloc.sizeofT := by
        rw [add_alloc, allocate_sizeofT]
        exact hs
      have hstep := ih (c.add v) (acc ++ [v]) hs1 (add_contInv c v acc hs h)
      rwa [List.append_assoc, List.singleton_append] at hstep

theorem display_eq_of_vals (c : CustomContainer) (vs : List Int)
    (h : c.data.map (readStore c.store) = vs.map some) :
    c.display = String.join (vs.map (fun v => toString v ++ " ")) ++ "\n" := by
  unfold CustomContainer.display
  have h2 := congrArg (List.map fun o : Option Int => toString (o.getD 0) ++ " ") h
  rw [List.map_map, List.map_map] at h2
  simp only [Function.comp_def, Option.getD_some] at h2
  rw [h2]

/-! ### Claim C8: container preserves insertion order -/

/-- Claim C8: a container that receives values `v0, ..., vk` via `add`
yields them back in exactly that order under iteration (`displayVals`) and
`display`; in particular for the integers 0..9 added in order, `display`
produces `"0 1 2 3 4 5 6 7 8 9 "` followed by a newline, `size` is 10 and
`empty` is false. -/
theorem container_insertion_order (a : CustomAllocator) (vs : List Int)
    (hs : 1 ≤ a.sizeofT) :
    (addList (mkContainer a) vs).displayVals = vs.map some
    ∧ (addList (mkContainer a) vs).size = vs.length
    ∧ (addList (mkContainer a) vs).display
        = String.join (vs.map (fun v => toString v ++ " ")) ++ "\n"
    ∧ (addList (mkContainer (ofBlockSize 10 4))
        ((List.range 10).map Int.ofNat)).display = "0 1 2 3 4 5 6 7 8 9 \n"
    ∧ (addList (mkContainer (ofBlockSize 10 4))
        ((List.range 10).map Int.ofNat)).size = 10
    ∧ (addList (mkContainer (ofBlockSize 10 4))
        ((List.range 10).map Int.ofNat)).empty = false := by
  have hinv := addList_contInv vs (mkContainer a) [] hs
    ⟨rfl, fun p hp => absurd hp (List.not_mem_nil p)⟩
  rw [List.nil_append] at hinv
  obtain ⟨hmap, _⟩ := hinv
  refine ⟨hmap, ?_, display_eq_of_vals _ vs hmap, ?_, ?_, ?_⟩
  · show (addList (mkContainer a) vs).data.length = vs.length
    have hlen := congrArg List.length hmap
    rwa [List.length_map, List.length_map] at hlen
  · decide
  · decide
  · decide

theorem container_insertion_order_witness :
    ((1 : Nat) ≤ (ofBlockSize 10 4).sizeofT) ∧
    ((addList (mkContainer (ofBlockSize 10 4)) [7, -2]).displayVals
        = [7, -2].map some
    ∧ (addList (mkContainer (ofBlockSize 10 4)) [7, -2]).size
        = List.length [7, -2]
    ∧ (addList (mkContainer (ofBlockSize 10 4)) [7, -2]).display
        = String.join ([7, -2].map (fun v => toString v ++ " ")) ++ "\n"
    ∧ (addList (mkContainer (ofBlockSize 10 4))
        ((List.range 10).map Int.ofNat)).display = "0 1 2 3 4 5 6 7 8 9 \n"
    ∧ (addList (mkContainer (ofBlockSize 10 4))
        ((List.range 10).map Int.ofNat)).size = 10
    ∧ (addList (mkContainer (ofBlockSize 10 4))
        ((List.range 10).map Int.ofNat)).empty = false) :=
  ⟨by decide, container_insertion_order (ofBlockSize 10 4) [7, -2] (by decide)⟩

end Lab4
